import Mathlib

/-!
Verification of the `shema` schema-derivation crate against its design
specification.  The definitions below are a shallow embedding of the crate's
source files (`src/utils.rs`, `src/lib.rs`, `src/firehose.rs`,
`src/parquet.rs`); each definition's doc comment cites the code it embeds.
Machine integers are modelled as `Nat` with explicit reductions modulo the
relevant power of two where the source relies on wrapping casts.
-/

/-! ## Case converter (`src/utils.rs`) -/

/-- Models Rust `char::is_uppercase` restricted to ASCII, which is the
character range the crate feeds to the converter (Rust identifiers and type
names).  Uppercase ASCII letters have code points 65 to 90. -/
def rust_is_uppercase (c : Char) : Bool :=
  decide (65 ≤ c.toNat ∧ c.toNat ≤ 90)

/-- Models Rust `char::to_lowercase` restricted to ASCII: an uppercase ASCII
letter is shifted down by 32 code points, every other character is returned
unchanged (the Unicode mapping emits exactly one character on this range). -/
def rust_to_lowercase (c : Char) : Char :=
  if rust_is_uppercase c then Char.ofNat (c.toNat + 32) else c

/-- State of the case-conversion loop: mirrors `enum Status` in
`src/utils.rs` lines 5-10. -/
inductive CaseStatus
  | prevSep
  | prevLower
  | prevUpper
  | repeatUpper
deriving DecidableEq

/-- Retroactive word split of `src/utils.rs` lines 41-46: `output.pop()`
followed by pushing the separator and the popped character, i.e. the
separator is inserted immediately before the last character of the buffer
(a buffer that is empty is returned unchanged). -/
def retro_split (sep : Char) : List Char → List Char
  | [] => []
  | [last] => [sep, last]
  | a :: rest => a :: retro_split sep rest

/-- Loop body of `to_lower_case_by_sep`, `src/utils.rs` lines 27-55: an
uppercase character is preceded by the separator only after a lowercase
character, is pushed lowercased, and moves the state to `prevUpper` (after
lower/sep) or `repeatUpper` (after upper); a non-uppercase character first
triggers the retroactive split when the state is `repeatUpper`, is pushed
verbatim, and the state records whether it equals the separator. -/
def to_lower_case_step (sep : Char) (acc : List Char × CaseStatus) (ch : Char) :
    List Char × CaseStatus :=
  if rust_is_uppercase ch then
    let out := match acc.2 with
      | CaseStatus.prevLower => acc.1 ++ [sep]
      | _ => acc.1
    let status := match acc.2 with
      | CaseStatus.prevLower | CaseStatus.prevSep => CaseStatus.prevUpper
      | _ => CaseStatus.repeatUpper
    (out ++ [rust_to_lowercase ch], status)
  else
    let out := match acc.2 with
      | CaseStatus.repeatUpper => retro_split sep acc.1
      | _ => acc.1
    (out ++ [ch], if ch = sep then CaseStatus.prevSep else CaseStatus.prevLower)

/-- Embedding of `to_lower_case_by_sep`, `src/utils.rs` lines 2-58, over the
character list of the input.  The first character is special-cased exactly as
lines 16-25: if uppercase it is lowercased and pushed with no separator and
the state starts at `prevUpper`, otherwise it is pushed verbatim and the
state keeps its initial `prevLower` value. -/
def to_lower_case_by_sep (input : List Char) (sep : Char) : List Char :=
  match input with
  | [] => []
  | ch :: rest =>
    let init : List Char × CaseStatus :=
      if rust_is_uppercase ch then ([rust_to_lowercase ch], CaseStatus.prevUpper)
      else ([ch], CaseStatus.prevLower)
    (rest.foldl (to_lower_case_step sep) init).1

/-- String-level wrapper with the Rust signature
`to_lower_case_by_sep(input: &str, sep: char) -> String`. -/
def to_lower_case_by_sep_str (input : String) (sep : Char) : String :=
  String.mk (to_lower_case_by_sep input.data sep)

/-! ### Character-level facts -/

theorem char_toNat_ofNat_small (n : Nat) (h : n < 55296) : (Char.ofNat n).toNat = n := by
  simp [Char.ofNat, Char.ofNatAux, Nat.isValidChar, h, Char.toNat, UInt32.toNat,
    BitVec.toNat_ofNatLt]

theorem rust_to_lowercase_toNat (c : Char) (h : rust_is_uppercase c = true) :
    (rust_to_lowercase c).toNat = c.toNat + 32 := by
  simp only [rust_is_uppercase, decide_eq_true_eq] at h
  rw [rust_to_lowercase, if_pos]
  · exact char_toNat_ofNat_small _ (by omega)
  · simp only [rust_is_uppercase, decide_eq_true_eq]
    omega

theorem rust_to_lowercase_not_upper (c : Char) (h : rust_is_uppercase c = true) :
    rust_is_uppercase (rust_to_lowercase c) = false := by
  have h2 := rust_to_lowercase_toNat c h
  simp only [rust_is_uppercase, decide_eq_true_eq] at h
  simp only [rust_is_uppercase, h2, decide_eq_false_iff_not]
  omega

theorem rust_to_lowercase_ne_underscore (c : Char) (h : rust_is_uppercase c = true) :
    rust_to_lowercase c ≠ '_' := by
  intro e
  have h2 := rust_to_lowercase_toNat c h
  simp only [rust_is_uppercase, decide_eq_true_eq] at h
  rw [e] at h2
  have h95 : ('_').toNat = 95 := rfl
  omega

/-! ### Head preservation: the output head is fixed by the first character -/

theorem retro_split_cons (sep a : Char) (t : List Char) (h : t ≠ []) :
    retro_split sep (a :: t) = a :: retro_split sep t := by
  cases t with
  | nil => exact absurd rfl h
  | cons b t2 => rfl

theorem retro_split_ne_nil (sep : Char) (l : List Char) (h : l ≠ []) :
    retro_split sep l ≠ [] := by
  cases l with
  | nil => exact absurd rfl h
  | cons a t =>
    cases t with
    | nil => simp [retro_split]
    | cons b t2 => simp [retro_split_cons]

theorem to_lower_case_step_head (sep : Char) (p : List Char × CaseStatus)
    (ch hd : Char) (t : List Char) (hout : p.1 = hd :: t)
    (hrep : p.2 = CaseStatus.repeatUpper → t ≠ []) :
    ∃ t2, (to_lower_case_step sep p ch).1 = hd :: t2 ∧
      ((to_lower_case_step sep p ch).2 = CaseStatus.repeatUpper → t2 ≠ []) := by
  obtain ⟨out, status⟩ := p
  simp only at hout hrep
  subst hout
  by_cases hch : rust_is_uppercase ch = true
  · cases status <;> simp_all [to_lower_case_step]
  · rw [Bool.not_eq_true] at hch
    cases status with
    | repeatUpper =>
      have ht : t ≠ [] := hrep rfl
      refine ⟨retro_split sep t ++ [ch], ?_, ?_⟩
      · simp [to_lower_case_step, hch, retro_split_cons sep hd t ht]
      · intro hcontra
        simp only [to_lower_case_step, hch, Bool.false_eq_true, if_false] at hcontra
        split at hcontra <;> simp_all
    | prevSep =>
      refine ⟨t ++ [ch], by simp [to_lower_case_step, hch], ?_⟩
      intro hcontra
      simp only [to_lower_case_step, hch, Bool.false_eq_true, if_false] at hcontra
      split at hcontra <;> simp_all
    | prevLower =>
      refine ⟨t ++ [ch], by simp [to_lower_case_step, hch], ?_⟩
      intro hcontra
      simp only [to_lower_case_step, hch, Bool.false_eq_true, if_false] at hcontra
      split at hcontra <;> simp_all
    | prevUpper =>
      refine ⟨t ++ [ch], by simp [to_lower_case_step, hch], ?_⟩
      intro hcontra
      simp only [to_lower_case_step, hch, Bool.false_eq_true, if_false] at hcontra
      split at hcontra <;> simp_all

theorem to_lower_case_fold_head (sep : Char) (cs : List Char) :
    ∀ (p : List Char × CaseStatus) (hd : Char) (t : List Char),
    p.1 = hd :: t → (p.2 = CaseStatus.repeatUpper → t ≠ []) →
    ∃ t2, (cs.foldl (to_lower_case_step sep) p).1 = hd :: t2 := by
  induction cs with
  | nil => exact fun p hd t h1 _ => ⟨t, h1⟩
  | cons ch cs ih =>
    intro p hd t h1 h2
    obtain ⟨t2, e, hrep⟩ := to_lower_case_step_head sep p ch hd t h1 h2
    exact ih (to_lower_case_step sep p ch) hd t2 e hrep

theorem to_lower_case_head_upper (c : Char) (cs : List Char) (sep : Char)
    (h : rust_is_uppercase c = true) :
    (to_lower_case_by_sep (c :: cs) sep).head? = some (rust_to_lowercase c) := by
  obtain ⟨t2, e⟩ := to_lower_case_fold_head sep cs
    ([rust_to_lowercase c], CaseStatus.prevUpper) (rust_to_lowercase c) []
    rfl (by intro hx; exact absurd hx (by simp))
  simp [to_lower_case_by_sep, h, e]

/-! ### The converted output contains no uppercase character -/

theorem mem_retro_split (sep c : Char) (l : List Char) (h : c ∈ retro_split sep l) :
    c ∈ l ∨ c = sep := by
  induction l with
  | nil => simp [retro_split] at h
  | cons a t ih =>
    cases t with
    | nil =>
      simp only [retro_split, List.mem_cons, List.mem_singleton] at h
      rcases h with h | h
      · right; exact h
      · rcases h with h | h
        · left; simp [h]
        · simp at h
    | cons b t2 =>
      rw [retro_split_cons sep a (b :: t2) (by simp)] at h
      rcases List.mem_cons.mp h with h | h
      · left; simp [h]
      · rcases ih h with h | h
        · left; exact List.mem_cons_of_mem _ h
        · right; exact h

theorem to_lower_case_step_no_upper (sep : Char) (hsep : rust_is_uppercase sep = false)
    (p : List Char × CaseStatus) (ch : Char)
    (hout : ∀ c ∈ p.1, rust_is_uppercase c = false) :
    ∀ c ∈ (to_lower_case_step sep p ch).1, rust_is_uppercase c = false := by
  obtain ⟨out, status⟩ := p
  intro c hc
  by_cases hch : rust_is_uppercase ch = true
  · simp only [to_lower_case_step, hch, if_true] at hc
    rcases List.mem_append.mp hc with h | h
    · have : c ∈ out ∨ c = sep := by
        cases status
        case prevLower =>
          rcases List.mem_append.mp h with h | h
          · exact Or.inl h
          · exact Or.inr (List.mem_singleton.mp h)
        all_goals exact Or.inl h
      rcases this with h2 | h2
      · exact hout c h2
      · rw [h2]; exact hsep
    · rw [List.mem_singleton.mp h]
      exact rust_to_lowercase_not_upper ch hch
  · rw [Bool.not_eq_true] at hch
    simp only [to_lower_case_step, hch, Bool.false_eq_true, if_false] at hc
    rcases List.mem_append.mp hc with h | h
    · have : c ∈ out ∨ c = sep := by
        cases status
        case repeatUpper => exact mem_retro_split sep c out h
        all_goals exact Or.inl h
      rcases this with h2 | h2
      · exact hout c h2
      · rw [h2]; exact hsep
    · rw [List.mem_singleton.mp h]; exact hch

theorem to_lower_case_fold_no_upper (sep : Char) (hsep : rust_is_uppercase sep = false)
    (cs : List Char) :
    ∀ (p : List Char × CaseStatus), (∀ c ∈ p.1, rust_is_uppercase c = false) →
    ∀ c ∈ (cs.foldl (to_lower_case_step sep) p).1, rust_is_uppercase c = false := by
  induction cs with
  | nil => exact fun p h => h
  | cons ch cs ih =>
    intro p hp
    exact ih (to_lower_case_step sep p ch) (to_lower_case_step_no_upper sep hsep p ch hp)

theorem to_lower_case_no_upper (input : List Char) (sep : Char)
    (hsep : rust_is_uppercase sep = false) :
    ∀ c ∈ to_lower_case_by_sep input sep, rust_is_uppercase c = false := by
  cases input with
  | nil => simp [to_lower_case_by_sep]
  | cons ch rest =>
    by_cases hch : rust_is_uppercase ch = true
    · simp only [to_lower_case_by_sep, hch, if_true]
      exact to_lower_case_fold_no_upper sep hsep rest _
        (by intro c hc
            rw [List.mem_singleton.mp hc]
            exact rust_to_lowercase_not_upper ch hch)
    · rw [Bool.not_eq_true] at hch
      simp only [to_lower_case_by_sep, hch, Bool.false_eq_true, if_false]
      exact to_lower_case_fold_no_upper sep hsep rest _
        (by intro c hc; rw [List.mem_singleton.mp hc]; exact hch)

/-! ### Upper-free input is a fixed point -/

theorem to_lower_case_fold_id (sep : Char) (cs : List Char) :
    ∀ (out : List Char) (status : CaseStatus),
    (∀ c ∈ cs, rust_is_uppercase c = false) →
    (status = CaseStatus.prevSep ∨ status = CaseStatus.prevLower) →
    (cs.foldl (to_lower_case_step sep) (out, status)).1 = out ++ cs := by
  induction cs with
  | nil => intro out status _ _; simp
  | cons ch cs ih =>
    intro out status hcs hstatus
    have hch : rust_is_uppercase ch = false := hcs ch (List.mem_cons_self ch cs)
    have hstep : to_lower_case_step sep (out, status) ch =
        (out ++ [ch], if ch = sep then CaseStatus.prevSep else CaseStatus.prevLower) := by
      rcases hstatus with h | h <;> subst h <;>
        simp [to_lower_case_step, hch]
    have : (List.foldl (to_lower_case_step sep) (out, status) (ch :: cs)) =
        List.foldl (to_lower_case_step sep) (to_lower_case_step sep (out, status) ch) cs := rfl
    rw [this, hstep, ih (out ++ [ch])
      (if ch = sep then CaseStatus.prevSep else CaseStatus.prevLower)
      (fun c hc => hcs c (List.mem_cons_of_mem ch hc))
      (by by_cases h : ch = sep <;> simp [h])]
    simp

theorem to_lower_case_fixed (input : List Char) (sep : Char)
    (h : ∀ c ∈ input, rust_is_uppercase c = false) :
    to_lower_case_by_sep input sep = input := by
  cases input with
  | nil => rfl
  | cons ch rest =>
    have hch : rust_is_uppercase ch = false := h ch (List.mem_cons_self ch rest)
    simp only [to_lower_case_by_sep, hch, Bool.false_eq_true, if_false]
    exact to_lower_case_fold_id sep rest [ch] CaseStatus.prevLower
      (fun c hc => h c (List.mem_cons_of_mem ch hc)) (Or.inr rfl)

/-! ## Schema model (`src/lib.rs`) -/

namespace Shema

/-- Closed enumeration of canonical field types, `src/lib.rs` lines 110-124. -/
inductive FieldType
  | Byte
  | Short
  | Integer
  | Long
  | Float
  | Double
  | String
  | Boolean
  | TimestampZ
  | Array
  | Object
  | Enum
deriving DecidableEq

/-- Per-field boolean facets, `src/lib.rs` lines 133-139. -/
inductive FieldFlag
  | Optional
  | Index
  | FirehoseDateIndex
deriving DecidableEq

/-- Bit value of a flag: `Optional = 1 << 0`, `Index = 1 << 1`,
`FirehoseDateIndex = 1 << 2` (`src/lib.rs` lines 133-139). -/
def FieldFlag.toBits : FieldFlag → Nat
  | .Optional => 1
  | .Index => 2
  | .FirehoseDateIndex => 4

/-- Flag bitset over a `u8`, `src/lib.rs` lines 141-154. -/
structure FieldFlagContainer where
  bits : Nat
deriving DecidableEq

/-- Models `FieldFlagContainer::set_type_flag`, `src/lib.rs` lines 144-147. -/
def FieldFlagContainer.set_type_flag (c : FieldFlagContainer) (flag : FieldFlag) :
    FieldFlagContainer :=
  ⟨c.bits ||| flag.toBits⟩

/-- Models `FieldFlagContainer::is_type_flag`, `src/lib.rs` lines 149-153. -/
def FieldFlagContainer.is_type_flag (c : FieldFlagContainer) (flag : FieldFlag) : Bool :=
  c.bits &&& flag.toBits == flag.toBits

/-- Canonical field record, `src/lib.rs` lines 156-165. -/
structure Field where
  name : String
  typ : FieldType
  original_name : String
  original_type : String
  typ_flags : FieldFlagContainer
  docstring : String
deriving DecidableEq

/-- Models `Field::table_field_name`, `src/lib.rs` lines 167-173
(`self.name.strip_prefix("r#").unwrap_or(self.name.as_str())`): the name
used for serialization, with the two leading raw-identifier marker
characters `r#` removed when present. -/
def Field.table_field_name (f : Field) : String :=
  match f.name.data with
  | 'r' :: '#' :: rest => String.mk rest
  | _ => f.name

/-- Requested output kinds, `src/lib.rs` lines 175-180. -/
structure Outputs where
  firehose_schema : Bool
  firehose_parquet_schema : Bool
  firehose_partition_code : Bool
  parquet_code : Bool
deriving DecidableEq

/-- Schema model, `src/lib.rs` lines 182-186. -/
structure TableSchema where
  name : String
  fields : List Field
  outputs : Outputs
deriving DecidableEq

/-- Models `TableSchema::lower_cased_table_name`, `src/lib.rs` lines 189-192. -/
def TableSchema.lower_cased_table_name (s : TableSchema) : String :=
  to_lower_case_by_sep_str s.name '_'

/-- Models `TableSchema::index_time_field`, `src/lib.rs` lines 194-197: the
first declared field carrying the `FirehoseDateIndex` flag, if any. -/
def TableSchema.index_time_field (s : TableSchema) : Option Field :=
  s.fields.find? (fun f => f.typ_flags.is_type_flag FieldFlag.FirehoseDateIndex)

/-- Shared emitter condition `Index && !FirehoseDateIndex`
(`src/firehose.rs` lines 89, 111, 124, 137, 146, 165, 176 and
`src/parquet.rs` lines 33, 269, 297). -/
def is_partition_index (f : Field) : Bool :=
  f.typ_flags.is_type_flag FieldFlag.Index &&
    !(f.typ_flags.is_type_flag FieldFlag.FirehoseDateIndex)

/-- Test for the `FirehoseDateIndex` flag. -/
def has_date_index (f : Field) : Bool :=
  f.typ_flags.is_type_flag FieldFlag.FirehoseDateIndex

/-- Per-field validation performed inside `from_struct`, `src/lib.rs` lines
403-419: once a field's flags and type are known, `FirehoseDateIndex` on a
non-`TimestampZ` type aborts the whole derivation with a compile error; no
other check is applied to the flag combination.  Attribute/type parsing by
the syn front-end is out of scope and assumed already done into `Field`
values. -/
def from_struct_validate : List Field → Except String Unit
  | [] => Except.ok ()
  | f :: rest =>
    if has_date_index f && !(f.typ == FieldType.TimestampZ) then
      Except.error "Firehose date index should be timestamp"
    else from_struct_validate rest

/-! ## Type mappers (`src/firehose.rs`, `src/parquet.rs`) -/

/-- Models `FieldType::aws_glue_type`, `src/firehose.rs` lines 7-23. -/
def aws_glue_type : FieldType → String
  | .Byte => "tinyint"
  | .Short => "smallint"
  | .Integer => "int"
  | .Long => "bigint"
  | .Float => "float"
  | .Double => "double"
  | .String => "string"
  | .Boolean => "boolean"
  | .TimestampZ => "timestamp"
  | .Array | .Object | .Enum => "string"

/-- Models `FieldType::aws_firehose_parquet`, `src/parquet.rs` lines 12-26. -/
def aws_firehose_parquet : FieldType → String
  | .Byte | .Short | .Integer => "INT32"
  | .Long => "INT64"
  | .Float => "FLOAT"
  | .Double => "DOUBLE"
  | .String => "BYTE_ARRAY"
  | .Boolean => "BOOLEAN"
  | .TimestampZ => "INT96"
  | .Array | .Object | .Enum => "BYTE_ARRAY"

/-- Models `FieldType::is_aws_firehose_parquet_utf8_converted`,
`src/parquet.rs` lines 6-10. -/
def is_aws_firehose_parquet_utf8_converted : FieldType → Bool
  | .String | .Array | .Object | .Enum => true
  | _ => false

/-! ## Ingestion-schema emitter (`src/firehose.rs`) -/

/-- Entry of the firehose JSON document, `src/firehose.rs` lines 32-40. -/
structure FirehoseType where
  name : String
  typ : String
  comment : String
  mapping : Option String
deriving DecidableEq

/-- Top-level firehose JSON document, `src/firehose.rs` lines 42-47. -/
structure FirehoseSchema where
  name : String
  partition_keys : List FirehoseType
  columns : List FirehoseType
deriving DecidableEq

/-- Single-quote character used inside the generated comments. -/
def squote : String := String.singleton (Char.ofNat 39)

/-- Synthetic `year`/`month`/`day` partition entries pushed first when an
index-time field exists, `src/firehose.rs` lines 56-77, including the
string-slicing mapping expressions over the RFC3339 value. -/
def firehose_date_entries (field : Field) : List FirehoseType :=
  let name := field.table_field_name
  let comment := "Extracted from " ++ squote ++ name ++ squote
  [ { name := "year", typ := "string", comment := comment,
      mapping := some ("(." ++ name ++ "|split(\"-\")[0])") },
    { name := "month", typ := "string", comment := comment,
      mapping := some ("(." ++ name ++ "|split(\"-\")[1])") },
    { name := "day", typ := "string", comment := comment,
      mapping := some ("(." ++ name ++ "|split(\"-\")[2]|split(\"T\")[0])") } ]

/-- Entry built for a declared field, `src/firehose.rs` lines 80-86. -/
def firehose_field_entry (field : Field) : FirehoseType :=
  { name := field.table_field_name, typ := aws_glue_type field.typ,
    comment := field.docstring, mapping := none }

/-- Partition-key form of the entry: mapping is a direct reference to the
field, `src/firehose.rs` lines 89-92. -/
def firehose_pk_entry (field : Field) : FirehoseType :=
  { firehose_field_entry field with
      mapping := some ("." ++ field.table_field_name) }

/-- Field loop of `generate_firehose_schema`, `src/firehose.rs` lines 79-96:
a field carrying `Index` without `FirehoseDateIndex` is pushed to
`partition_keys`, any other field (the date-index field included) is pushed
to `columns`, in declaration order. -/
def firehose_collect : List Field → List FirehoseType × List FirehoseType
  | [] => ([], [])
  | f :: rest =>
    let pc := firehose_collect rest
    if is_partition_index f then (firehose_pk_entry f :: pc.1, pc.2)
    else (pc.1, firehose_field_entry f :: pc.2)

/-- Embedding of `generate_firehose_schema`, `src/firehose.rs` lines 49-100,
producing the document that is serialized to JSON.  `index_time_field` is the
caller-supplied `FirehoseInput` member; `from_struct` passes
`schema.index_time_field()` (`src/lib.rs` lines 429-433). -/
def generate_firehose_schema (schema : TableSchema) (index_time_field : Option Field) :
    FirehoseSchema :=
  let date := match index_time_field with
    | some field => firehose_date_entries field
    | none => []
  let pc := firehose_collect schema.fields
  { name := schema.lower_cased_table_name,
    partition_keys := date ++ pc.1,
    columns := pc.2 }

/-! ## Columnar-DDL emitter (`src/parquet.rs`) -/

/-- Fields whose DDL line is emitted by `generate_parquet_schema`:
`src/parquet.rs` lines 32-36 skip every `Index`-but-not-`FirehoseDateIndex`
field. -/
def parquet_schema_fields (schema : TableSchema) : List Field :=
  schema.fields.filter (fun f => !is_partition_index f)

/-- Repetition keyword of a DDL line, `src/parquet.rs` lines 40-45. -/
def parquet_ddl_repetition (f : Field) : String :=
  if f.typ_flags.is_type_flag FieldFlag.Optional then "OPTIONAL " else "REQUIRED "

/-- Optional annotation appended to a DDL line, `src/parquet.rs` lines 47-49. -/
def parquet_ddl_utf8_mark (f : Field) : String :=
  if is_aws_firehose_parquet_utf8_converted f.typ then " (UTF8)" else ""

/-- Body of one DDL line of `generate_parquet_schema`, `src/parquet.rs`
lines 39-51 (leading indent and trailing `;` elided). -/
def parquet_ddl_field_line (f : Field) : String :=
  parquet_ddl_repetition f ++ aws_firehose_parquet f.typ ++ " " ++ f.table_field_name
    ++ parquet_ddl_utf8_mark f

/-- Names appearing in the emitted parquet DDL field list. -/
def parquet_schema_field_names (schema : TableSchema) : List String :=
  (parquet_schema_fields schema).map Field.table_field_name

/-! ## Accessor-code emitter (`src/firehose.rs`) -/

/-- Component of the tuple returned by the generated partition-key
accessors. -/
inductive PartitionComp
  | year (t : Field)
  | month (t : Field)
  | day (t : Field)
  | fieldRef (f : Field)
deriving DecidableEq

/-- Components of the tuple built by the generated `partition_keys_ref`
body, `src/firehose.rs` lines 119-128: when an index-time field is present,
`self.<t>.year(), self.<t>.month() as _, self.<t>.day(),` come first, then
`&self.<name>,` for every `Index`-but-not-`FirehoseDateIndex` field in
declaration order. -/
def partition_keys_ref_comps (schema : TableSchema) (index_time_field : Option Field) :
    List PartitionComp :=
  (match index_time_field with
    | some t => [PartitionComp.year t, PartitionComp.month t, PartitionComp.day t]
    | none => []) ++
  (schema.fields.filter is_partition_index).map PartitionComp.fieldRef

/-- Components of the tuple built by the generated owned `partition_keys`
body, `src/firehose.rs` lines 142-151 (clones instead of references, same
selection and order). -/
def partition_keys_comps (schema : TableSchema) (index_time_field : Option Field) :
    List PartitionComp :=
  (match index_time_field with
    | some t => [PartitionComp.year t, PartitionComp.month t, PartitionComp.day t]
    | none => []) ++
  (schema.fields.filter is_partition_index).map PartitionComp.fieldRef

/-- Element types of the `reference_type` tuple, `src/firehose.rs` lines
105-115: `i32,u8,u8,` only when an index-time field exists, then the
declared type of every partition-index field (reference marker and lifetime
elided). -/
def partition_keys_ref_types (schema : TableSchema) (index_time_field : Option Field) :
    List String :=
  (match index_time_field with
    | some _ => ["i32", "u8", "u8"]
    | none => []) ++
  (schema.fields.filter is_partition_index).map Field.original_type

/-- Label written for one field inside the generated s3 path format string,
`src/firehose.rs` line 166. -/
def s3_path_label (f : Field) : String := f.table_field_name

/-- Labels of the generated s3 path format string, `src/firehose.rs` lines
160-168: `year`, `month`, `day` only when an index-time field exists, then
one label per partition-index field in declaration order. -/
def s3_path_labels (schema : TableSchema) (index_time_field : Option Field) :
    List String :=
  (match index_time_field with
    | some _ => ["year", "month", "day"]
    | none => []) ++
  (schema.fields.filter is_partition_index).map s3_path_label

/-- Field-argument loop of the s3 path formatter, `src/firehose.rs` lines
174-180: `let mut idx = 3;` then for every partition-index field the
formatter argument `<label>=self.0.<idx>` is written and `idx` is
incremented.  Each pair is the label and the tuple position the generated
code reads. -/
def s3_path_field_args : List Field → Nat → List (String × Nat)
  | [], _ => []
  | f :: rest, idx =>
    if is_partition_index f then
      (f.table_field_name, idx) :: s3_path_field_args rest (idx + 1)
    else s3_path_field_args rest idx

/-- Arguments of the s3 path formatter, `src/firehose.rs` lines 171-180:
`year=self.0.0, month=self.0.1 as u8, day=self.0.2,` only when an index-time
field exists, then the field arguments starting from the unconditional
`idx = 3`. -/
def s3_path_args (schema : TableSchema) (index_time_field : Option Field) :
    List (String × Nat) :=
  (match index_time_field with
    | some _ => [("year", 0), ("month", 1), ("day", 2)]
    | none => []) ++
  s3_path_field_args schema.fields 3

/-- Identifier through which the generated partition accessors read the
source record: `self.{field.name}` at `src/firehose.rs` lines 121, 125, 144
and 148 uses the post-rename `name` verbatim, with no raw-identifier
stripping. -/
def partition_accessor_read_ident (f : Field) : String := f.name

/-! ## Writer-code emitter (`src/parquet.rs`) -/

/-- Identifier through which the generated parquet writer reads the source
record: `rec.{field_name}` / `record.{field_name}` with
`field_name = original_name` throughout `ParquetFieldWriter::fmt`,
`src/parquet.rs` lines 79-215, with no raw-identifier stripping. -/
def parquet_writer_read_ident (f : Field) : String := f.original_name

/-- Column-writer variant named by the generated type guard for each field
type: the `match self.0.typ` of `ParquetFieldWriter::fmt`, `src/parquet.rs`
lines 86-208. -/
def parquet_column_writer_variant : FieldType → String
  | .Boolean => "BoolColumnWriter"
  | .Byte | .Short | .Integer => "Int32ColumnWriter"
  | .Long => "Int64ColumnWriter"
  | .Float => "FloatColumnWriter"
  | .Double => "DoubleColumnWriter"
  | .String => "ByteArrayColumnWriter"
  | .TimestampZ => "Int96ColumnWriter"
  | .Array | .Object | .Enum => "ByteArrayColumnWriter"

/-- Logical type written by the generated schema-accessor code: models the
`LOGICAL_NONE` / `LOGICAL_STRING` / integer-variant strings of
`ParquetFieldSchema::fmt`, `src/parquet.rs` lines 224-240, structurally. -/
inductive ParquetLogicalType
  | noneType
  | stringType
  | integerType (bit_width : Nat) (is_signed : Bool)
deriving DecidableEq

/-- Logical/physical type pair of the match in `ParquetFieldSchema::fmt`,
`src/parquet.rs` lines 227-240. -/
def parquet_schema_accessor_types : FieldType → ParquetLogicalType × String
  | .Byte => (ParquetLogicalType.integerType 8 true, "INT32")
  | .Short => (ParquetLogicalType.integerType 16 true, "INT32")
  | .Integer => (ParquetLogicalType.integerType 32 true, "INT32")
  | .Long => (ParquetLogicalType.integerType 64 true, "INT64")
  | .Float => (ParquetLogicalType.noneType, "FLOAT")
  | .Double => (ParquetLogicalType.noneType, "DOUBLE")
  | .String => (ParquetLogicalType.stringType, "BYTE_ARRAY")
  | .Boolean => (ParquetLogicalType.noneType, "BOOLEAN")
  | .TimestampZ => (ParquetLogicalType.noneType, "INT96")
  | .Array | .Object | .Enum => (ParquetLogicalType.stringType, "BYTE_ARRAY")

/-- Arguments of the `primitive_type_builder` call chain emitted for one
field by the generated `fn schema()` method. -/
structure SchemaAccessorField where
  name : String
  logical : ParquetLogicalType
  physical : String
  repetition : String
deriving DecidableEq

/-- Models `ParquetFieldSchema::fmt`, `src/parquet.rs` lines 219-251: the
builder expression names the column with `table_field_name()` (line 248),
takes physical and logical type from the match at lines 227-240 and the
repetition from lines 242-246. -/
def parquet_field_schema (f : Field) : SchemaAccessorField :=
  { name := f.table_field_name,
    logical := (parquet_schema_accessor_types f.typ).1,
    physical := (parquet_schema_accessor_types f.typ).2,
    repetition := if f.typ_flags.is_type_flag FieldFlag.Optional
      then "OPTIONAL" else "REQUIRED" }

/-- Field entries pushed by the generated `fn schema()` body,
`src/parquet.rs` lines 294-305: the loop skips partition-index fields
(line 297) exactly as the DDL loop does and pushes `ParquetFieldSchema`
for every remaining field in declaration order. -/
def parquet_schema_accessor_fields (schema : TableSchema) : List SchemaAccessorField :=
  (schema.fields.filter (fun f => !is_partition_index f)).map parquet_field_schema

/-- Little-endian byte `i` of a 64-bit value: models `u64::to_le_bytes`. -/
def u64_le_byte (n i : Nat) : Nat := (n / 256 ^ i) % 256

/-- Models `u32::from_ne_bytes` on a little-endian host, the target the
generated writer runs on: the four bytes combine least-significant first. -/
def u32_from_le_bytes (b0 b1 b2 b3 : Nat) : Nat :=
  b0 + 256 * b1 + 65536 * b2 + 16777216 * b3

/-- Nanoseconds elapsed since midnight as computed by the generated code:
`Duration::hours(h) + Duration::minutes(m) + Duration::seconds(s) +
Duration::nanoseconds(ns)` followed by `whole_nanoseconds()`
(`src/parquet.rs` lines 65-67). -/
def whole_nanoseconds_of_day (hour minute second nanosecond : Nat) : Nat :=
  hour * 3600000000000 + minute * 60000000000 + second * 1000000000 + nanosecond

/-- Embedding of the `ENCODE_HIVE_INT96_TIMESTAMP` block emitted for every
`TimestampZ` column, `src/parquet.rs` lines 63-77: the Julian day is cast to
`u32`, the nanoseconds of the day are cast to `u64` and decomposed into
little-endian bytes, and the 96-bit record is assembled by
`set_data(low32, high32, julian_day)` in that argument order. -/
def encode_hive_int96_timestamp (julian_day hour minute second nanosecond : Nat) :
    Nat × Nat × Nat :=
  let jd32 := julian_day % 4294967296
  let time_nanos :=
    whole_nanoseconds_of_day hour minute second nanosecond % 18446744073709551616
  (u32_from_le_bytes (u64_le_byte time_nanos 0) (u64_le_byte time_nanos 1)
      (u64_le_byte time_nanos 2) (u64_le_byte time_nanos 3),
   u32_from_le_bytes (u64_le_byte time_nanos 4) (u64_le_byte time_nanos 5)
      (u64_le_byte time_nanos 6) (u64_le_byte time_nanos 7),
   jd32)

end Shema

namespace Shema

/-! ## Concrete example data

Fields of the crate's end-to-end test (`tests/derive.rs`), used to evaluate
the embedding on closed inputs. -/

/-- Index key `r#client_id: String` with `#[shema(index)]`. -/
def exClientId : Field :=
  { name := "r#client_id", typ := FieldType.String, original_name := "r#client_id",
    original_type := "String", typ_flags := ⟨2⟩, docstring := "" }

/-- Date index `r#client_time: time::OffsetDateTime` with
`#[shema(index, firehose_date_index)]`. -/
def exClientTime : Field :=
  { name := "r#client_time", typ := FieldType.TimestampZ,
    original_name := "r#client_time", original_type := "time :: OffsetDateTime",
    typ_flags := ⟨6⟩, docstring := "" }

/-- Second timestamp field carrying only `firehose_date_index`. -/
def exServerTime : Field :=
  { name := "server_time", typ := FieldType.TimestampZ,
    original_name := "server_time", original_type := "time :: OffsetDateTime",
    typ_flags := ⟨4⟩, docstring := "" }

/-- String field wrongly carrying `firehose_date_index`. -/
def exBadDate : Field :=
  { name := "stamp", typ := FieldType.String, original_name := "stamp",
    original_type := "String", typ_flags := ⟨4⟩, docstring := "" }

def exOutputs : Outputs :=
  { firehose_schema := true, firehose_parquet_schema := true,
    firehose_partition_code := true, parquet_code := true }

/-- Two-field schema with one date-index field and one index key. -/
def exSchema : TableSchema :=
  { name := "AnalyticsEvent", fields := [exClientId, exClientTime], outputs := exOutputs }

/-- Schema with an index key but no date-index field. -/
def exSchemaNoDate : TableSchema :=
  { name := "AnalyticsEvent", fields := [exClientId], outputs := exOutputs }

/-- Schema with two date-index fields, both of timestamp type. -/
def exSchemaTwoDates : TableSchema :=
  { name := "AnalyticsEvent", fields := [exClientTime, exServerTime], outputs := exOutputs }

/-! ## Helper lemmas -/

/-- Partition-key half of the firehose field loop: the pushed entries are the
partition-index fields in declaration order. -/
theorem firehose_collect_fst (fields : List Field) :
    (firehose_collect fields).1
      = (fields.filter is_partition_index).map firehose_pk_entry := by
  induction fields with
  | nil => rfl
  | cons f rest ih =>
    by_cases h : is_partition_index f = true <;>
      simp [firehose_collect, List.filter_cons, h, ih]

/-- Column half of the firehose field loop: the pushed entries are the
remaining fields in declaration order. -/
theorem firehose_collect_snd (fields : List Field) :
    (firehose_collect fields).2
      = (fields.filter (fun f => !is_partition_index f)).map firehose_field_entry := by
  induction fields with
  | nil => rfl
  | cons f rest ih =>
    by_cases h : is_partition_index f = true <;>
      simp [firehose_collect, List.filter_cons, h, ih]

/-- A list whose filtration is a singleton finds that element first. -/
theorem find?_of_filter_singleton {α : Type} (p : α → Bool) (l : List α) (a : α)
    (h : l.filter p = [a]) : l.find? p = some a := by
  induction l with
  | nil => simp at h
  | cons x rest ih =>
    by_cases hx : p x = true
    · rw [List.filter_cons_of_pos hx] at h
      rw [List.find?_cons_of_pos _ hx]
      exact congrArg some (List.cons.inj h).1
    · rw [List.filter_cons_of_neg (by simpa using hx)] at h
      rw [List.find?_cons_of_neg _ hx]
      exact ih h

/-- Evaluation of `table_field_name` on a raw identifier. -/
theorem table_field_name_of_raw (f : Field) (h : f.name.data.take 2 = ['r', '#']) :
    f.table_field_name = String.mk (f.name.data.drop 2) := by
  have hdata : f.name.data = 'r' :: '#' :: f.name.data.drop 2 := by
    conv_lhs => rw [← List.take_append_drop 2 f.name.data]
    rw [h]
    rfl
  unfold Field.table_field_name
  conv_lhs => rw [hdata]
  rfl

end Shema

namespace Shema

/-! ## Claim theorems -/

/-- C8: the case converter maps "ClientID" to "client_id", "HTTPServer" to
"http_server" and "already_snake" to "already_snake" with the separator set
to the underscore character, and when the input starts with an uppercase
character the output never starts with the separator. -/
theorem C8_case_conversion :
    to_lower_case_by_sep_str "ClientID" '_' = "client_id"
    ∧ to_lower_case_by_sep_str "HTTPServer" '_' = "http_server"
    ∧ to_lower_case_by_sep_str "already_snake" '_' = "already_snake"
    ∧ ∀ (c : Char) (cs : List Char), rust_is_uppercase c = true →
        (to_lower_case_by_sep (c :: cs) '_').head? ≠ some '_' := by
  refine ⟨by decide, by decide, by decide, ?_⟩
  intro c cs h e
  rw [to_lower_case_head_upper c cs '_' h] at e
  exact rust_to_lowercase_ne_underscore c h (Option.some.inj e)

/-- Witness for C8 at the concrete input "A". -/
theorem C8_case_conversion_witness :
    (to_lower_case_by_sep ['A'] '_').head? ≠ some '_' :=
  C8_case_conversion.2.2.2 'A' [] (by decide)

/-- C9: the case converter is idempotent: converting its own output again
returns the output unchanged. -/
theorem C9_case_conversion_idempotent (input : String) :
    to_lower_case_by_sep_str (to_lower_case_by_sep_str input '_') '_'
      = to_lower_case_by_sep_str input '_' := by
  unfold to_lower_case_by_sep_str
  have hdata : (String.mk (to_lower_case_by_sep input.data '_')).data
      = to_lower_case_by_sep input.data '_' := rfl
  rw [hdata, to_lower_case_fixed (to_lower_case_by_sep input.data '_') '_'
    (to_lower_case_no_upper input.data '_' (by decide))]

/-- C3: the columnar physical type of every field type matches the fixed
table, and the UTF8 annotation is appended to a DDL line exactly when the
field type is String, Array, Object or Enum. -/
theorem C3_parquet_type_table :
    (aws_firehose_parquet FieldType.Byte = "INT32"
      ∧ aws_firehose_parquet FieldType.Short = "INT32"
      ∧ aws_firehose_parquet FieldType.Integer = "INT32"
      ∧ aws_firehose_parquet FieldType.Long = "INT64"
      ∧ aws_firehose_parquet FieldType.Float = "FLOAT"
      ∧ aws_firehose_parquet FieldType.Double = "DOUBLE"
      ∧ aws_firehose_parquet FieldType.String = "BYTE_ARRAY"
      ∧ aws_firehose_parquet FieldType.Boolean = "BOOLEAN"
      ∧ aws_firehose_parquet FieldType.TimestampZ = "INT96"
      ∧ aws_firehose_parquet FieldType.Array = "BYTE_ARRAY"
      ∧ aws_firehose_parquet FieldType.Object = "BYTE_ARRAY"
      ∧ aws_firehose_parquet FieldType.Enum = "BYTE_ARRAY")
    ∧ ∀ f : Field, parquet_ddl_field_line f
        = parquet_ddl_repetition f ++ aws_firehose_parquet f.typ ++ " "
            ++ f.table_field_name
            ++ (if f.typ = FieldType.String ∨ f.typ = FieldType.Array
                  ∨ f.typ = FieldType.Object ∨ f.typ = FieldType.Enum
                then " (UTF8)" else "") := by
  refine ⟨by decide, ?_⟩
  intro f
  unfold parquet_ddl_field_line parquet_ddl_utf8_mark
  cases h : f.typ <;>
    simp [is_aws_firehose_parquet_utf8_converted, h]


/-- C6: a field carrying the FirehoseDateIndex flag whose type is not
TimestampZ makes the whole derivation fail with the model error, wherever
the field is declared. -/
theorem C6_date_index_requires_timestamp (fields : List Field) (f : Field)
    (hmem : f ∈ fields) (hdi : has_date_index f = true)
    (hty : f.typ ≠ FieldType.TimestampZ) :
    from_struct_validate fields
      = Except.error "Firehose date index should be timestamp" := by
  induction fields with
  | nil => simp at hmem
  | cons x rest ih =>
    by_cases hx : (has_date_index x && !(x.typ == FieldType.TimestampZ)) = true
    · simp [from_struct_validate, hx]
    · rcases List.mem_cons.mp hmem with h | h
      · subst h
        exact absurd (by simp [hdi, hty]) hx
      · simp only [from_struct_validate, hx, Bool.false_eq_true, if_false]
        exact ih h

/-- Witness for C6: a String field flagged as date index fails validation. -/
theorem C6_date_index_requires_timestamp_witness :
    exBadDate ∈ [exBadDate] ∧ has_date_index exBadDate = true
      ∧ exBadDate.typ ≠ FieldType.TimestampZ
      ∧ from_struct_validate [exBadDate]
          = Except.error "Firehose date index should be timestamp" :=
  ⟨by decide, by decide, by decide,
    C6_date_index_requires_timestamp [exBadDate] exBadDate (by decide) (by decide)
      (by decide)⟩

/-- C5 counterexample: a schema whose two fields both carry
FirehoseDateIndex (both of timestamp type) passes the model validation of
`from_struct` and generation proceeds using the first declared date field,
so more than one FirehoseDateIndex field is not a hard error. -/
theorem C5_counterexample :
    1 < (exSchemaTwoDates.fields.filter has_date_index).length
    ∧ from_struct_validate exSchemaTwoDates.fields = Except.ok ()
    ∧ exSchemaTwoDates.index_time_field = some exClientTime := by
  exact ⟨by decide, rfl, rfl⟩

/-- C5 amended: with more than one FirehoseDateIndex field the derivation
does not fail as long as every such field is of timestamp type; validation
succeeds and the first declared date-index field is the one used. -/
theorem C5_amended_multiple_date_index (fields : List Field)
    (h : ∀ f ∈ fields, has_date_index f = true → f.typ = FieldType.TimestampZ) :
    from_struct_validate fields = Except.ok () := by
  induction fields with
  | nil => rfl
  | cons x rest ih =>
    have hx : (has_date_index x && !(x.typ == FieldType.TimestampZ)) = false := by
      cases hdi : has_date_index x with
      | false => simp [hdi]
      | true => simp [hdi, h x (List.mem_cons_self x rest) hdi]
    simp only [from_struct_validate, hx, Bool.false_eq_true, if_false]
    exact ih (fun f hf hdi => h f (List.mem_cons_of_mem x hf) hdi)

/-- Witness for the amended C5 at the two-date-field schema. -/
theorem C5_amended_multiple_date_index_witness :
    (∀ f ∈ exSchemaTwoDates.fields, has_date_index f = true →
        f.typ = FieldType.TimestampZ)
    ∧ from_struct_validate exSchemaTwoDates.fields = Except.ok () :=
  ⟨by decide, C5_amended_multiple_date_index exSchemaTwoDates.fields (by decide)⟩

/-- C4: the emitted TimestampZ writer code produces, for each value, one
96-bit record assembled as (low32, high32, julian day), where the julian day
is reduced to an unsigned 32-bit integer and low32/high32 are the
little-endian 32-bit halves of the nanoseconds elapsed since midnight taken
as an unsigned 64-bit integer; the TimestampZ column is guarded as an
Int96 column writer. -/
theorem C4_int96_encoding (julian_day hour minute second nanosecond : Nat)
    (hh : hour < 24) (hm : minute < 60) (hs : second < 60)
    (hn : nanosecond < 1000000000) :
    encode_hive_int96_timestamp julian_day hour minute second nanosecond
      = (whole_nanoseconds_of_day hour minute second nanosecond % 4294967296,
         whole_nanoseconds_of_day hour minute second nanosecond / 4294967296,
         julian_day % 4294967296)
    ∧ parquet_column_writer_variant FieldType.TimestampZ = "Int96ColumnWriter" := by
  constructor
  · have hlt : whole_nanoseconds_of_day hour minute second nanosecond
        < 18446744073709551616 := by
      unfold whole_nanoseconds_of_day
      omega
    unfold encode_hive_int96_timestamp u32_from_le_bytes u64_le_byte
    simp only [Nat.mod_eq_of_lt hlt, Prod.mk.injEq, pow_zero, pow_one, Nat.div_one]
    norm_num
    refine ⟨by omega, by omega⟩
  · rfl

/-- Witness for C4 at noon plus a little on the J2000 julian day. -/
theorem C4_int96_encoding_witness :
    encode_hive_int96_timestamp 2451545 12 30 45 500
      = (whole_nanoseconds_of_day 12 30 45 500 % 4294967296,
         whole_nanoseconds_of_day 12 30 45 500 / 4294967296,
         2451545 % 4294967296)
    ∧ parquet_column_writer_variant FieldType.TimestampZ = "Int96ColumnWriter" :=
  C4_int96_encoding 2451545 12 30 45 500 (by decide) (by decide) (by decide)
    (by decide)


/-- C1: with exactly one FirehoseDateIndex field t, the ingestion schema's
partition_keys array is exactly the three synthetic year/month/day entries
in that fixed order followed by every Index-but-not-FirehoseDateIndex field
in declaration order, wherever t is declared, and t itself is also emitted
as a regular entry of the columns array. -/
theorem C1_firehose_partition_keys (schema : TableSchema) (t : Field)
    (h : schema.fields.filter has_date_index = [t]) :
    (generate_firehose_schema schema schema.index_time_field).partition_keys
      = firehose_date_entries t
        ++ (schema.fields.filter is_partition_index).map firehose_pk_entry
    ∧ (firehose_date_entries t).map FirehoseType.name = ["year", "month", "day"]
    ∧ firehose_field_entry t
        ∈ (generate_firehose_schema schema schema.index_time_field).columns := by
  have hitf : schema.index_time_field = some t := by
    unfold TableSchema.index_time_field
    exact find?_of_filter_singleton _ _ _ h
  have hmem : t ∈ schema.fields.filter has_date_index := by
    rw [h]
    exact List.mem_singleton_self t
  have hfields : t ∈ schema.fields := (List.mem_filter.mp hmem).1
  have hdi : t.typ_flags.is_type_flag FieldFlag.FirehoseDateIndex = true :=
    (List.mem_filter.mp hmem).2
  have hnpi : is_partition_index t = false := by simp [is_partition_index, hdi]
  refine ⟨?_, rfl, ?_⟩
  · simp [generate_firehose_schema, hitf, firehose_collect_fst]
  · have hcol : t ∈ schema.fields.filter (fun f => !is_partition_index f) :=
      List.mem_filter.mpr ⟨hfields, by simp [hnpi]⟩
    simp only [generate_firehose_schema, firehose_collect_snd]
    exact List.mem_map_of_mem _ hcol

/-- Witness for C1 at the two-field example schema, where the date field is
declared after the index key. -/
theorem C1_firehose_partition_keys_witness :
    exSchema.fields.filter has_date_index = [exClientTime]
    ∧ ((generate_firehose_schema exSchema exSchema.index_time_field).partition_keys
          = firehose_date_entries exClientTime
            ++ (exSchema.fields.filter is_partition_index).map firehose_pk_entry
        ∧ (firehose_date_entries exClientTime).map FirehoseType.name
            = ["year", "month", "day"]
        ∧ firehose_field_entry exClientTime
            ∈ (generate_firehose_schema exSchema exSchema.index_time_field).columns) :=
  ⟨by decide, C1_firehose_partition_keys exSchema exClientTime (by decide)⟩

/-- C2: a field carrying Index without FirehoseDateIndex appears in the
ingestion schema's partition_keys with a mapping that references the field
directly, and its name does not appear in the parquet DDL field list
(field names are assumed pairwise distinct, as they are for a Rust
struct). -/
theorem C2_index_exclusion (schema : TableSchema) (f : Field)
    (hmem : f ∈ schema.fields) (hpi : is_partition_index f = true)
    (hnodup : (schema.fields.map Field.table_field_name).Nodup) :
    (∃ e ∈ (generate_firehose_schema schema schema.index_time_field).partition_keys,
        e.name = f.table_field_name ∧ e.mapping = some ("." ++ f.table_field_name))
    ∧ f.table_field_name ∉ parquet_schema_field_names schema := by
  constructor
  · refine ⟨firehose_pk_entry f, ?_, rfl, rfl⟩
    have hf : f ∈ schema.fields.filter is_partition_index :=
      List.mem_filter.mpr ⟨hmem, hpi⟩
    simp only [generate_firehose_schema, firehose_collect_fst]
    exact List.mem_append_right _ (List.mem_map_of_mem _ hf)
  · intro hcontra
    unfold parquet_schema_field_names parquet_schema_fields at hcontra
    obtain ⟨g, hg, he⟩ := List.mem_map.mp hcontra
    have hgmem : g ∈ schema.fields := (List.mem_filter.mp hg).1
    have hgnpi : (!is_partition_index g) = true := (List.mem_filter.mp hg).2
    have hgf : g = f := List.inj_on_of_nodup_map hnodup hgmem hmem he
    rw [hgf, hpi] at hgnpi
    simp at hgnpi

/-- Witness for C2 at the example schema and its index key. -/
theorem C2_index_exclusion_witness :
    (exClientId ∈ exSchema.fields ∧ is_partition_index exClientId = true
      ∧ (exSchema.fields.map Field.table_field_name).Nodup)
    ∧ ((∃ e ∈ (generate_firehose_schema exSchema exSchema.index_time_field).partition_keys,
          e.name = exClientId.table_field_name
          ∧ e.mapping = some ("." ++ exClientId.table_field_name))
        ∧ exClientId.table_field_name ∉ parquet_schema_field_names exSchema) :=
  ⟨⟨by decide, by decide, by decide⟩,
    C2_index_exclusion exSchema exClientId (by decide) (by decide) (by decide)⟩

/-- C7: evaluation of the partition accessor generator at a schema with one
index key and no date-index field.  The year/month/day components are
omitted from the reference tuple, the owned tuple and the path labels, and
the tuples shrink so that the single partition key sits at position 0; but
the generated path formatter still references tuple position 3 (the source
initialises idx = 3 unconditionally), so the generated code reads a tuple
position that does not exist. -/
theorem C7_no_date_accessor_eval :
    exSchemaNoDate.index_time_field = none
    ∧ partition_keys_ref_comps exSchemaNoDate exSchemaNoDate.index_time_field
        = [PartitionComp.fieldRef exClientId]
    ∧ partition_keys_comps exSchemaNoDate exSchemaNoDate.index_time_field
        = [PartitionComp.fieldRef exClientId]
    ∧ partition_keys_ref_types exSchemaNoDate exSchemaNoDate.index_time_field
        = ["String"]
    ∧ s3_path_labels exSchemaNoDate exSchemaNoDate.index_time_field = ["client_id"]
    ∧ s3_path_args exSchemaNoDate exSchemaNoDate.index_time_field = [("client_id", 3)]
    ∧ (partition_keys_ref_comps exSchemaNoDate exSchemaNoDate.index_time_field).length
        = 1 := by
  decide

/-- C10: for a field whose post-rename name keeps the raw-identifier marker,
every emitted name (ingestion entries, the date-entry mappings, the parquet
DDL line, the generated schema-accessor builder call, the s3 path label)
uses the name with the leading r# stripped, while the generated
record-reading code uses the stored identifiers unchanged: the partition
accessors read the post-rename name and the parquet writer reads the
original declaration name, neither stripped. -/
theorem C10_raw_ident_names (f : Field) (h : f.name.data.take 2 = ['r', '#']) :
    (firehose_field_entry f).name = String.mk (f.name.data.drop 2)
    ∧ (firehose_pk_entry f).name = String.mk (f.name.data.drop 2)
    ∧ ((firehose_date_entries f).map FirehoseType.mapping).head?
        = some (some ("(." ++ String.mk (f.name.data.drop 2) ++ "|split(\"-\")[0])"))
    ∧ parquet_ddl_field_line f
        = parquet_ddl_repetition f ++ aws_firehose_parquet f.typ ++ " "
            ++ String.mk (f.name.data.drop 2) ++ parquet_ddl_utf8_mark f
    ∧ (parquet_field_schema f).name = String.mk (f.name.data.drop 2)
    ∧ s3_path_label f = String.mk (f.name.data.drop 2)
    ∧ partition_accessor_read_ident f = f.name
    ∧ parquet_writer_read_ident f = f.original_name := by
  have htfn := table_field_name_of_raw f h
  refine ⟨htfn, htfn, ?_, ?_, htfn, htfn, rfl, rfl⟩
  · simp [firehose_date_entries, htfn]
  · unfold parquet_ddl_field_line
    rw [htfn]

/-- Witness for C10 at the raw-identifier date field. -/
theorem C10_raw_ident_names_witness :
    exClientTime.name.data.take 2 = ['r', '#']
    ∧ ((firehose_field_entry exClientTime).name
          = String.mk (exClientTime.name.data.drop 2)
        ∧ (firehose_pk_entry exClientTime).name
          = String.mk (exClientTime.name.data.drop 2)
        ∧ ((firehose_date_entries exClientTime).map FirehoseType.mapping).head?
            = some (some ("(." ++ String.mk (exClientTime.name.data.drop 2)
                ++ "|split(\"-\")[0])"))
        ∧ parquet_ddl_field_line exClientTime
            = parquet_ddl_repetition exClientTime
                ++ aws_firehose_parquet exClientTime.typ ++ " "
                ++ String.mk (exClientTime.name.data.drop 2)
                ++ parquet_ddl_utf8_mark exClientTime
        ∧ (parquet_field_schema exClientTime).name
            = String.mk (exClientTime.name.data.drop 2)
        ∧ s3_path_label exClientTime = String.mk (exClientTime.name.data.drop 2)
        ∧ partition_accessor_read_ident exClientTime = exClientTime.name
        ∧ parquet_writer_read_ident exClientTime = exClientTime.original_name) :=
  ⟨by decide, C10_raw_ident_names exClientTime (by decide)⟩

end Shema
